import Mathlib

/-!
Verification development for the zip-to-sandboxed-preview pipeline.

The definitions below are a shallow embedding of the repository's
JavaScript sources:
  * `ZipProcessor` (archive validation, extraction, project classification),
  * `RunStore` (the in-memory run registry),
  * the run orchestration performed by `processRun` together with the
    `DELETE /api/runs/:id` handler and the `WorkerManager`,
  * the preview route (`GET /preview/:runId/*`) with its CSP selection,
    fallback content synthesis and content-type derivation.

Pure computations are translated to Lean functions; the effectful
extraction and orchestration code is modelled by explicit traces of
filesystem actions and by a small-step transition relation on a system
state, with one atomic step per registry/worker mutation and the points
where the single-threaded event loop can interleave a client `DELETE`.
-/

namespace Pipeline

/-! ## String helpers mirroring the JavaScript primitives used by the code -/

/-- Splits a character list at every occurrence of the separator `c`,
mirroring JavaScript `String.prototype.split` with a single-character
separator: `n` separators yield `n + 1` pieces (possibly empty). -/
def splitOnChar (c : Char) : List Char → List (List Char)
  | [] => [[]]
  | x :: xs =>
    if x = c then [] :: splitOnChar c xs
    else
      match splitOnChar c xs with
      | [] => [[x]]
      | s :: ss => (x :: s) :: ss

/-- Mirrors JavaScript `s.includes('..')`: true exactly when two
consecutive `'.'` characters occur somewhere in the list. -/
def hasDoubleDot : List Char → Bool
  | [] => false
  | [_] => false
  | x :: y :: rest => (x == '.' && y == '.') || hasDoubleDot (y :: rest)

/-- `entry.entryName.includes('..')` from `ZipProcessor.extract`. -/
def entryHasDotDot (name : String) : Bool :=
  hasDoubleDot name.toList

/-- `path.isAbsolute(entry.entryName)` for POSIX-style zip entry names:
the name starts with `'/'`. -/
def isAbsoluteEntry (name : String) : Bool :=
  name.startsWith "/"

/-- `entry.entryName.split('/').length` from `ZipProcessor.extract`. -/
def entryDepth (name : String) : Nat :=
  (splitOnChar '/' name.toList).length

/-- The hard-coded nesting-depth bound in `ZipProcessor.extract`
(`if (depth > 20) throw`). -/
def maxEntryDepth : Nat := 20

/-- Spec-level notion: the entry path contains a parent-directory
traversal segment, i.e. `".."` is one of its `/`-separated segments. -/
def hasTraversalSegment (name : String) : Prop :=
  ['.', '.'] ∈ splitOnChar '/' name.toList

instance (name : String) : Decidable (hasTraversalSegment name) := by
  unfold hasTraversalSegment; infer_instance

/-! ### Facts connecting the segment-level traversal notion to the
source's substring check -/

theorem splitOnChar_ne_nil (c : Char) (l : List Char) :
    splitOnChar c l ≠ [] := by
  cases l with
  | nil => simp [splitOnChar]
  | cons x xs =>
    simp only [splitOnChar]
    split
    · simp
    · cases h : splitOnChar c xs <;> simp

theorem splitOnChar_head_takeWhile (c : Char) (l : List Char) :
    ∀ s ss, splitOnChar c l = s :: ss → s = l.takeWhile (fun a => a ≠ c) := by
  induction l with
  | nil => intro s ss h; simp [splitOnChar] at h; simp [h.1]
  | cons x xs ih =>
    intro s ss h
    simp only [splitOnChar] at h
    by_cases hx : x = c
    · rw [if_pos hx] at h
      obtain ⟨h1, _⟩ := List.cons.inj h
      subst hx
      simp [List.takeWhile, ← h1]
    · rw [if_neg hx] at h
      cases hsp : splitOnChar c xs with
      | nil => exact absurd hsp (splitOnChar_ne_nil c xs)
      | cons s0 ss0 =>
        rw [hsp] at h
        obtain ⟨h1, _⟩ := List.cons.inj h
        have := ih s0 ss0 hsp
        subst this
        simp [List.takeWhile, ← h1, hx]

theorem hasDoubleDot_cons (x : Char) (xs : List Char)
    (h : hasDoubleDot xs = true) : hasDoubleDot (x :: xs) = true := by
  cases xs with
  | nil => simp [hasDoubleDot] at h
  | cons y ys => simp [hasDoubleDot, h]

/-- Every `/`-separated segment equal to `".."` forces two consecutive
dots somewhere in the original character list, i.e. the source's
`includes('..')` check fires on any path with a traversal segment. -/
theorem hasDoubleDot_of_segment (l : List Char)
    (h : ['.', '.'] ∈ splitOnChar '/' l) : hasDoubleDot l = true := by
  induction l with
  | nil => simp [splitOnChar] at h
  | cons x xs ih =>
    simp only [splitOnChar] at h
    by_cases hx : x = '/'
    · rw [if_pos hx] at h
      rcases List.mem_cons.mp h with h | h
      · simp at h
      · exact hasDoubleDot_cons x xs (ih h)
    · rw [if_neg hx] at h
      cases hsp : splitOnChar '/' xs with
      | nil => exact absurd hsp (splitOnChar_ne_nil '/' xs)
      | cons s0 ss0 =>
        rw [hsp] at h
        rcases List.mem_cons.mp h with h | h
        · -- the head segment is `x :: s0`; it equals ".." so `x = '.'`
          -- and `s0 = ['.']`, and `s0` is the `'/'`-free head of `xs`.
          obtain ⟨hx1, hs1⟩ := List.cons.inj h
          have hs0 : s0 = List.takeWhile (fun a => a ≠ '/') xs :=
            splitOnChar_head_takeWhile '/' xs s0 ss0 hsp
          rw [← hs1] at hs0
          cases xs with
          | nil => simp at hs0
          | cons y ys =>
            rw [List.takeWhile_cons] at hs0
            by_cases hy : y = '/'
            · simp [hy] at hs0
            · simp [hy] at hs0
              rw [← hx1, ← hs0.1]
              simp [hasDoubleDot]
        · -- `".."` is one of the later segments, all of which are
          -- segments of `xs`.
          have hmem : ['.', '.'] ∈ splitOnChar '/' xs := by
            rw [hsp]; exact List.mem_cons_of_mem _ h
          exact hasDoubleDot_cons x xs (ih hmem)

/-! ## Project classification (`ZipProcessor.analyzeProject` and friends) -/

/-- `sub` occurs at the start of the second list. -/
def leadsList : List Char → List Char → Bool
  | [], _ => true
  | _ :: _, [] => false
  | a :: as, b :: bs => a == b && leadsList as bs

/-- `sub` occurs somewhere in the list. -/
def includesList (sub : List Char) : List Char → Bool
  | [] => sub.isEmpty
  | x :: xs => leadsList sub (x :: xs) || includesList sub xs

/-- Mirrors JavaScript `s.includes(sub)` for the substring tests the
classifier performs. -/
def strIncludes (s sub : String) : Bool :=
  includesList sub.toList s.toList

/-- The parsed contents of a `package.json` manifest, as the classifier
consumes it after `readPackageJson`: the `scripts` map (name → command
string) and the key sets of `dependencies` / `devDependencies`.
Dependency version strings in real manifests are non-empty, so a key's
presence coincides with JavaScript truthiness of `dependencies.<key>`;
we therefore model the two dependency objects by their key lists. -/
structure PackageJson where
  scripts : List (String × String) := []
  dependencies : List String := []
  devDependencies : List String := []
  deriving Repr, DecidableEq

/-- The state of the `package.json` file on disk as `readPackageJson`
encounters it: unreadable (`fs.readFile` rejects), unparsable
(`JSON.parse` throws), or successfully parsed. -/
inductive ManifestFile where
  | unreadable
  | unparsable
  | parsed (p : PackageJson)
  deriving Repr, DecidableEq

/-- `ZipProcessor.readPackageJson`: returns the parsed manifest, and
degrades to the empty object `{}` when reading or parsing fails (the
`catch` branch returns `{}` and never rethrows). -/
def readPackageJson : ManifestFile → PackageJson
  | .parsed p => p
  | .unreadable => {}
  | .unparsable => {}

/-- `packageInfo.scripts[k]` lookup. -/
def getScript (p : PackageJson) (k : String) : Option String :=
  (p.scripts.find? (fun kv => kv.1 == k)).map (fun kv => kv.2)

/-- JavaScript truthiness of an optional string: present and non-empty. -/
def truthy : Option String → Bool
  | some s => !s.isEmpty
  | none => false

/-- JavaScript `a || d` for an optional string `a` and default `d`:
the value of `a` when truthy, else `d`. -/
def jsOrDefault (a : Option String) (d : String) : String :=
  match a with
  | some s => if s.isEmpty then d else s
  | none => d

/-- JavaScript `a || null`: the value of `a` when truthy, else null. -/
def jsOrNull (a : Option String) : Option String :=
  match a with
  | some s => if s.isEmpty then none else some s
  | none => none

/-- `dependencies.<k> || devDependencies.<k>` truthiness under the
key-list model of the dependency objects. -/
def hasDep (p : PackageJson) (k : String) : Bool :=
  p.dependencies.contains k || p.devDependencies.contains k

/-- `ProjectInfo`: the classifier's output record. -/
structure ProjectInfo where
  type : String
  framework : Option String := none
  files : List String := []
  buildCommand : Option String := none
  startCommand : Option String := none
  dependencies : Option (List String) := none
  entryPoint : Option String := none
  extractPath : Option String := none
  deriving Repr, DecidableEq

/-- `ZipProcessor.analyzeNodeProject`, translated branch by branch. -/
def analyzeNodeProject (files : List String) (p : PackageJson) : ProjectInfo :=
  if hasDep p "react" then
    { type := "react", framework := some "React", files := files
      buildCommand := if truthy (getScript p "build") then some "npm run build" else none
      startCommand := some (jsOrDefault (getScript p "start")
        (jsOrDefault (getScript p "dev") "npm start"))
      dependencies := some p.dependencies }
  else if hasDep p "vue" then
    { type := "vue", framework := some "Vue.js", files := files
      buildCommand := if truthy (getScript p "build") then some "npm run build" else none
      startCommand := some (jsOrDefault (getScript p "serve")
        (jsOrDefault (getScript p "dev") "npm run serve"))
      dependencies := some p.dependencies }
  else if hasDep p "@angular/core" then
    { type := "angular", framework := some "Angular", files := files
      buildCommand := if truthy (getScript p "build") then some "npm run build" else none
      startCommand := some (jsOrDefault (getScript p "start") "ng serve")
      dependencies := some p.dependencies }
  else if p.dependencies.contains "express" || p.dependencies.contains "fastify"
      || p.dependencies.contains "koa" then
    { type := "node", framework := some "Node.js Server", files := files
      buildCommand := jsOrNull (getScript p "build")
      startCommand := some (jsOrDefault (getScript p "start") "node index.js")
      dependencies := some p.dependencies }
  else
    { type := "node", framework := some "Node.js", files := files
      buildCommand := jsOrNull (getScript p "build")
      startCommand := some (jsOrDefault (getScript p "start")
        (jsOrDefault (getScript p "dev") "node index.js"))
      dependencies := some p.dependencies }

/-- `ZipProcessor.analyzePythonProject`. -/
def analyzePythonProject (files : List String) : ProjectInfo :=
  if files.any (fun f => strIncludes f "app.py" || strIncludes f "main.py") then
    { type := "python", framework := some "Python Web App", files := files
      buildCommand := some "pip install -r requirements.txt"
      startCommand := some "python app.py" }
  else
    { type := "python", framework := some "Python", files := files
      buildCommand := some "pip install -r requirements.txt"
      startCommand := some "python main.py" }

/-- `ZipProcessor.analyzeStaticProject`. -/
def analyzeStaticProject (files : List String) : ProjectInfo :=
  { type := "static", framework := some "Static HTML", files := files
    buildCommand := none, startCommand := none
    entryPoint :=
      if files.any (fun f => f.endsWith "index.html") then some "index.html"
      else files.find? (fun f => f.endsWith ".html") }

/-- `files.filter(f => !f.includes('/'))`: the top-level file listing. -/
def rootFiles (files : List String) : List String :=
  files.filter (fun f => !strIncludes f "/")

/-- `ZipProcessor.analyzeProject`, with the on-disk `package.json`
state passed explicitly (the source reads it from the extracted tree;
it is consulted only when `package.json` is a root file). -/
def analyzeProject (files : List String) (manifest : ManifestFile) : ProjectInfo :=
  if (rootFiles files).contains "package.json" then
    analyzeNodeProject files (readPackageJson manifest)
  else if (rootFiles files).contains "requirements.txt"
      || (rootFiles files).contains "Pipfile" then
    analyzePythonProject files
  else if (rootFiles files).contains "Dockerfile" then
    { type := "docker", files := files
      buildCommand := some "docker build .", startCommand := some "docker run" }
  else if files.any (fun f => f.endsWith ".html") then
    analyzeStaticProject files
  else
    { type := "unknown", files := files, buildCommand := none, startCommand := none }

/-! ## Archive validation and extraction (`ZipProcessor.extract`) -/

/-- The `config.upload` values `extract` consults
(`src/config/index.js` sets `maxFiles: 1000`). -/
structure UploadConfig where
  maxFiles : Nat
  deriving Repr, DecidableEq

/-- An uploaded zip archive, abstracted to its entry-name listing
(`zip.getEntries()` / `entry.entryName`); directory entries carry a
trailing `/`. -/
structure ZipArchive where
  entries : List String
  deriving Repr, DecidableEq

/-- The errors `extract` throws before or during extraction. -/
inductive ExtractError where
  | tooManyFiles (count max : Nat)   -- "ZIP contains too many files"
  | unsafePath (name : String)      -- "Unsafe file path in ZIP"
  | pathTooDeep (name : String)     -- "File path too deep"
  | writeFailed                     -- extraction itself threw
  deriving Repr, DecidableEq

/-- Per-entry security check from the `for (const entry of entries)`
loop in `ZipProcessor.extract`: the `..`/absolute test fires first,
then the depth test. -/
def checkEntry (name : String) : Option ExtractError :=
  if entryHasDotDot name || isAbsoluteEntry name then some (.unsafePath name)
  else if entryDepth name > maxEntryDepth then some (.pathTooDeep name)
  else none

/-- The validation loop: first failing entry wins. -/
def checkEntries : List String → Option ExtractError
  | [] => none
  | e :: rest =>
    match checkEntry e with
    | some err => some err
    | none => checkEntries rest

/-- The directories `getFileList` skips while walking the extracted
tree. -/
def skippedDirs : List String := ["node_modules", ".git", "__pycache__", ".pytest_cache"]

/-- `ZipProcessor.getFileList` applied to the tree produced by
extracting the archive: the file entries (no trailing `/`) whose
directory components avoid the skipped directories, listed by their
relative paths. -/
def getFileList (entries : List String) : List String :=
  (entries.filter (fun e => !e.endsWith "/")).filter
    (fun e => ((splitOnChar '/' e.toList).dropLast).all
      (fun seg => !skippedDirs.contains (String.mk seg)))

/-- Filesystem effects `extract` performs under the destination root,
in order: creating the destination directory, writing all entries
(`zip.extractAllTo`), and the recursive force-removal in the `catch`
block. -/
inductive FsAction where
  | mkdirDest
  | writeAll
  | removeDest
  deriving Repr, DecidableEq

/-- Result of `ZipProcessor.extract`: the ordered filesystem trace and
the returned `ProjectInfo` or thrown error. -/
structure ExtractResult where
  trace : List FsAction
  result : Except ExtractError ProjectInfo
  deriving Repr

/-- `ZipProcessor.extract zipPath runId`, as a function of the archive's
entry listing, the `package.json` state of the extracted tree, and
whether the write of the entries itself succeeds (`writeOk`, standing
for `extractAllTo` not throwing).  The entry-count check runs first,
then the per-entry path checks, all before `mkdir`/`extractAllTo`; any
thrown error reaches the `catch` block, which force-removes the
destination directory before rethrowing. -/
def extract (cfg : UploadConfig) (runId : String) (zip : ZipArchive)
    (manifest : ManifestFile) (writeOk : Bool) : ExtractResult :=
  if zip.entries.length > cfg.maxFiles then
    { trace := [.removeDest]
      result := .error (.tooManyFiles zip.entries.length cfg.maxFiles) }
  else
    match checkEntries zip.entries with
    | some err => { trace := [.removeDest], result := .error err }
    | none =>
      if writeOk then
        { trace := [.mkdirDest, .writeAll]
          result := .ok { analyzeProject (getFileList zip.entries) manifest with
            extractPath := some ("temp/extracted-" ++ runId) } }
      else
        { trace := [.mkdirDest, .writeAll, .removeDest]
          result := .error .writeFailed }

theorem checkEntry_eq_some_of_bad (e : String)
    (h : entryHasDotDot e = true ∨ isAbsoluteEntry e = true ∨
      entryDepth e > maxEntryDepth) :
    ∃ err, checkEntry e = some err := by
  unfold checkEntry
  by_cases h1 : (entryHasDotDot e || isAbsoluteEntry e) = true
  · exact ⟨.unsafePath e, by rw [if_pos h1]⟩
  · have h2 : entryDepth e > maxEntryDepth := by
      rcases h with h | h | h
      · simp [h] at h1
      · simp [h] at h1
      · exact h
    exact ⟨.pathTooDeep e, by rw [if_neg h1, if_pos h2]⟩

theorem checkEntries_eq_some_of_mem :
    ∀ (es : List String) (e : String), e ∈ es → (∃ err, checkEntry e = some err) →
      ∃ err, checkEntries es = some err := by
  intro es
  induction es with
  | nil => intro e he _; simp at he
  | cons a rest ih =>
    intro e he hbad
    rcases List.mem_cons.mp he with rfl | he'
    · obtain ⟨err, herr⟩ := hbad
      exact ⟨err, by simp [checkEntries, herr]⟩
    · cases ha : checkEntry a with
      | some err => exact ⟨err, by simp [checkEntries, ha]⟩
      | none =>
        obtain ⟨err, herr⟩ := ih e he' hbad
        exact ⟨err, by simp [checkEntries, ha, herr]⟩

/-- C1: `ZipProcessor.extract` fails for every archive whose entry
count exceeds the configured maximum, or containing an entry path that
is absolute or has a parent-directory traversal segment, or an entry
path nested deeper than the configured maximum; no such archive is
extracted (no entry write appears in the filesystem trace). -/
theorem extract_rejects_unsafe_archive
    (cfg : UploadConfig) (runId : String) (zip : ZipArchive)
    (manifest : ManifestFile) (writeOk : Bool)
    (h : zip.entries.length > cfg.maxFiles ∨
      ∃ e ∈ zip.entries, isAbsoluteEntry e = true ∨ hasTraversalSegment e ∨
        entryDepth e > maxEntryDepth) :
    (∃ err, (extract cfg runId zip manifest writeOk).result = .error err) ∧
      FsAction.writeAll ∉ (extract cfg runId zip manifest writeOk).trace := by
  unfold extract
  rcases h with hcount | ⟨e, he, hbad⟩
  · rw [if_pos hcount]
    exact ⟨⟨_, rfl⟩, by simp⟩
  · have hbad' : ∃ err, checkEntry e = some err := by
      apply checkEntry_eq_some_of_bad
      rcases hbad with h | h | h
      · exact Or.inr (Or.inl h)
      · exact Or.inl (hasDoubleDot_of_segment _ h)
      · exact Or.inr (Or.inr h)
    obtain ⟨err, herr⟩ := checkEntries_eq_some_of_mem zip.entries e he hbad'
    by_cases hc : zip.entries.length > cfg.maxFiles
    · rw [if_pos hc]
      exact ⟨⟨_, rfl⟩, by simp⟩
    · rw [if_neg hc, herr]
      exact ⟨⟨err, rfl⟩, by simp⟩

/-- Witness for C1 on the archive `["../evil"]` with the configured
`maxFiles = 1000`. -/
theorem extract_rejects_unsafe_archive_witness :
    (∃ err, (extract ⟨1000⟩ "run1" ⟨["../evil"]⟩ .unreadable true).result = .error err) ∧
      FsAction.writeAll ∉ (extract ⟨1000⟩ "run1" ⟨["../evil"]⟩ .unreadable true).trace :=
  extract_rejects_unsafe_archive ⟨1000⟩ "run1" ⟨["../evil"]⟩ .unreadable true
    (Or.inr ⟨"../evil", by decide, Or.inr (Or.inl (by decide))⟩)

/-- C2: all entries are validated before any file is written — one bad
entry aborts the whole extraction with no entry write in the trace —
and whenever `extract` fails, the final filesystem action is the
recursive removal of the destination directory, so no extracted output
survives a failed extraction. -/
theorem extract_aborts_and_cleans_up
    (cfg : UploadConfig) (runId : String) (zip : ZipArchive)
    (manifest : ManifestFile) (writeOk : Bool) :
    ((∃ e ∈ zip.entries, checkEntry e ≠ none) →
      (∃ err, (extract cfg runId zip manifest writeOk).result = .error err) ∧
        FsAction.writeAll ∉ (extract cfg runId zip manifest writeOk).trace) ∧
    (∀ err, (extract cfg runId zip manifest writeOk).result = .error err →
      (extract cfg runId zip manifest writeOk).trace.getLast? =
        some FsAction.removeDest) := by
  constructor
  · rintro ⟨e, he, hbad⟩
    have hbad' : ∃ err, checkEntry e = some err := by
      cases hce : checkEntry e with
      | some err => exact ⟨err, rfl⟩
      | none => exact absurd hce hbad
    obtain ⟨err, herr⟩ := checkEntries_eq_some_of_mem zip.entries e he hbad'
    unfold extract
    by_cases hc : zip.entries.length > cfg.maxFiles
    · rw [if_pos hc]
      exact ⟨⟨_, rfl⟩, by simp⟩
    · rw [if_neg hc, herr]
      exact ⟨⟨err, rfl⟩, by simp⟩
  · intro err herr
    by_cases hc : zip.entries.length > cfg.maxFiles
    · simp [extract, hc]
    · cases hce : checkEntries zip.entries with
      | some e' => simp [extract, hc, hce]
      | none =>
        cases hw : writeOk with
        | true => simp [extract, hc, hce, hw] at herr
        | false => simp [extract, hc, hce, hw]

/-- Witness for C2 on the archive `["../evil"]`. -/
theorem extract_aborts_and_cleans_up_witness :
    ((∃ err, (extract ⟨1000⟩ "run1" ⟨["../evil"]⟩ .unreadable true).result = .error err) ∧
      FsAction.writeAll ∉ (extract ⟨1000⟩ "run1" ⟨["../evil"]⟩ .unreadable true).trace) ∧
    (extract ⟨1000⟩ "run1" ⟨["../evil"]⟩ .unreadable true).trace.getLast? =
      some FsAction.removeDest :=
  ⟨(extract_aborts_and_cleans_up ⟨1000⟩ "run1" ⟨["../evil"]⟩ .unreadable true).1
      ⟨"../evil", by decide, by decide⟩,
   (extract_aborts_and_cleans_up ⟨1000⟩ "run1" ⟨["../evil"]⟩ .unreadable true).2
      (.unsafePath "../evil") (by rfl)⟩

theorem analyzeNodeProject_type_mem (files : List String) (p : PackageJson) :
    (analyzeNodeProject files p).type ∈ (["react", "vue", "angular", "node"] : List String) := by
  unfold analyzeNodeProject
  split_ifs <;> simp

/-- C3: classification applies the strict precedence order
`package.json` → `requirements.txt`/`Pipfile` → `Dockerfile` → any
`*.html` anywhere → `unknown`, first match winning; a `package.json`
with `dependencies.react` yields type `react`, with `dependencies.vue`
(and no react dependency) type `vue`, and with both `package.json` and
`Dockerfile` present the Node/framework type wins over `docker`. -/
theorem analyzeProject_precedence (files : List String) (p : PackageJson)
    (m : ManifestFile) :
    ("package.json" ∈ rootFiles files →
      (analyzeProject files m).type ∈ (["react", "vue", "angular", "node"] : List String)) ∧
    ("package.json" ∈ rootFiles files → p.dependencies.contains "react" = true →
      (analyzeProject files (.parsed p)).type = "react") ∧
    ("package.json" ∈ rootFiles files → p.dependencies.contains "vue" = true →
      hasDep p "react" = false →
      (analyzeProject files (.parsed p)).type = "vue") ∧
    ("package.json" ∈ rootFiles files → "Dockerfile" ∈ rootFiles files →
      (analyzeProject files m).type ≠ "docker" ∧
      (analyzeProject files m).type ∈ (["react", "vue", "angular", "node"] : List String)) ∧
    ("package.json" ∉ rootFiles files →
      ("requirements.txt" ∈ rootFiles files ∨ "Pipfile" ∈ rootFiles files) →
      (analyzeProject files m).type = "python") ∧
    ("package.json" ∉ rootFiles files → "requirements.txt" ∉ rootFiles files →
      "Pipfile" ∉ rootFiles files → "Dockerfile" ∈ rootFiles files →
      (analyzeProject files m).type = "docker") ∧
    ("package.json" ∉ rootFiles files → "requirements.txt" ∉ rootFiles files →
      "Pipfile" ∉ rootFiles files → "Dockerfile" ∉ rootFiles files →
      (∃ f ∈ files, f.endsWith ".html" = true) →
      (analyzeProject files m).type = "static") ∧
    ("package.json" ∉ rootFiles files → "requirements.txt" ∉ rootFiles files →
      "Pipfile" ∉ rootFiles files → "Dockerfile" ∉ rootFiles files →
      (∀ f ∈ files, f.endsWith ".html" = false) →
      (analyzeProject files m).type = "unknown") := by
  refine ⟨?_, ?_, ?_, ?_, ?_, ?_, ?_, ?_⟩
  · intro hpkg
    have hc : (rootFiles files).contains "package.json" = true := by simpa using hpkg
    simp only [analyzeProject, hc, if_true]
    exact analyzeNodeProject_type_mem files (readPackageJson m)
  · intro hpkg hreact
    have hd : hasDep p "react" = true := by
      simp only [hasDep, hreact, Bool.true_or]
    simp [analyzeProject, hpkg, readPackageJson, analyzeNodeProject, hd]
  · intro hpkg hvue hreact
    have hd : hasDep p "vue" = true := by
      simp only [hasDep, hvue, Bool.true_or]
    simp [analyzeProject, hpkg, readPackageJson, analyzeNodeProject, hd, hreact]
  · intro hpkg _
    have hc : (rootFiles files).contains "package.json" = true := by simpa using hpkg
    constructor
    · simp only [analyzeProject, hc, if_true]
      have := analyzeNodeProject_type_mem files (readPackageJson m)
      intro heq
      rw [heq] at this
      simp at this
    · simp only [analyzeProject, hc, if_true]
      exact analyzeNodeProject_type_mem files (readPackageJson m)
  · intro hpkg hreq
    have hor : ((rootFiles files).contains "requirements.txt"
        || (rootFiles files).contains "Pipfile") = true := by
      rcases hreq with h | h
      · simp only [Bool.or_eq_true]
        exact Or.inl (by simpa using h)
      · simp only [Bool.or_eq_true]
        exact Or.inr (by simpa using h)
    simp only [analyzeProject, analyzePythonProject]
    rw [if_neg (by simpa using hpkg), if_pos hor]
    split_ifs <;> rfl
  · intro hpkg hreq hpip hdock
    have hd : (rootFiles files).contains "Dockerfile" = true := by simpa using hdock
    simp only [analyzeProject]
    rw [if_neg (by simpa using hpkg),
      if_neg (by simp only [Bool.or_eq_true]
                 rintro (h | h)
                 exacts [hreq (by simpa using h), hpip (by simpa using h)]),
      if_pos hd]
  · intro hpkg hreq hpip hdock hhtml
    have ha : files.any (fun f => f.endsWith ".html") = true := by
      rw [List.any_eq_true]
      obtain ⟨f, hf, he⟩ := hhtml
      exact ⟨f, hf, he⟩
    simp only [analyzeProject, analyzeStaticProject]
    rw [if_neg (by simpa using hpkg),
      if_neg (by simp only [Bool.or_eq_true]
                 rintro (h | h)
                 exacts [hreq (by simpa using h), hpip (by simpa using h)]),
      if_neg (by simpa using hdock), if_pos ha]
  · intro hpkg hreq hpip hdock hhtml
    have ha : ¬ files.any (fun f => f.endsWith ".html") = true := by
      rw [List.any_eq_true]
      rintro ⟨f, hf, he⟩
      rw [hhtml f hf] at he
      exact absurd he (by simp)
    simp only [analyzeProject]
    rw [if_neg (by simpa using hpkg),
      if_neg (by simp only [Bool.or_eq_true]
                 rintro (h | h)
                 exacts [hreq (by simpa using h), hpip (by simpa using h)]),
      if_neg (by simpa using hdock), if_neg ha]

/-- Witness for C3: a one-file project whose `package.json` declares a
react dependency classifies as `react`. -/
theorem analyzeProject_precedence_witness :
    (analyzeProject ["package.json"]
      (.parsed { dependencies := ["react"] })).type = "react" :=
  (analyzeProject_precedence ["package.json"] { dependencies := ["react"] }
    (.parsed { dependencies := ["react"] })).2.1 (by decide) (by decide)

/-- C9: an unreadable or unparsable `package.json` degrades to the
empty manifest — classification proceeds with the default Node.js
commands and never propagates the read/parse failure (the classifier
is a total function of the manifest state). -/
theorem readPackageJson_degrades (files : List String) (m : ManifestFile) :
    readPackageJson .unreadable = {} ∧
    readPackageJson .unparsable = {} ∧
    ((m = .unreadable ∨ m = .unparsable) → "package.json" ∈ rootFiles files →
      analyzeProject files m = analyzeNodeProject files {} ∧
      (analyzeProject files m).type = "node" ∧
      (analyzeProject files m).buildCommand = none ∧
      (analyzeProject files m).startCommand = some "node index.js") := by
  refine ⟨rfl, rfl, ?_⟩
  intro hm hpkg
  have hc : (rootFiles files).contains "package.json" = true := by simpa using hpkg
  have hread : readPackageJson m = {} := by rcases hm with rfl | rfl <;> rfl
  have hmain : analyzeProject files m = analyzeNodeProject files {} := by
    simp only [analyzeProject]
    rw [if_pos hc, hread]
  refine ⟨hmain, ?_, ?_, ?_⟩ <;> rw [hmain] <;>
    simp [analyzeNodeProject, hasDep, getScript, jsOrNull, jsOrDefault]

/-- Witness for C9 at a concrete unparsable manifest. -/
theorem readPackageJson_degrades_witness :
    analyzeProject ["package.json"] .unparsable =
      analyzeNodeProject ["package.json"] {} ∧
    (analyzeProject ["package.json"] .unparsable).type = "node" ∧
    (analyzeProject ["package.json"] .unparsable).buildCommand = none ∧
    (analyzeProject ["package.json"] .unparsable).startCommand = some "node index.js" :=
  (readPackageJson_degrades ["package.json"] .unparsable).2.2
    (Or.inr rfl) (by decide)

/-! ## Run Registry (`RunStore`, src/services/run-store.js) -/

/-- A stored Run record with the fields the routes and the orchestrator
read and write.  Provenance fields are set at creation; the rest start
absent and are filled in by `update` merges. -/
structure StoredRun where
  id : String
  status : String
  createdAt : String
  filePath : String := ""
  originalName : String := ""
  fileSize : Nat := 0
  updatedAt : Option String := none
  projectType : Option String := none
  projectInfo : Option ProjectInfo := none
  workerId : Option String := none
  workerPort : Option Nat := none
  previewUrl : Option String := none
  error : Option String := none
  readyAt : Option String := none
  failedAt : Option String := none
  deriving Repr, DecidableEq

/-- A set of fields passed to `RunStore.update`; `none` means the field
is absent from the JavaScript update object (the call sites only ever
pass the fields below, and never `id` or the provenance fields). -/
structure RunPatch where
  status : Option String := none
  projectType : Option String := none
  projectInfo : Option ProjectInfo := none
  workerId : Option String := none
  workerPort : Option Nat := none
  previewUrl : Option String := none
  error : Option String := none
  readyAt : Option String := none
  failedAt : Option String := none
  deriving Repr, DecidableEq

/-- Field-level effect of the object spread `{ ...existing, ...updates }`
on one optional field. -/
def overrideOpt {α : Type} (pv old : Option α) : Option α :=
  match pv with
  | some v => some v
  | none => old

@[simp] theorem overrideOpt_none {α : Type} (old : Option α) :
    overrideOpt none old = old := rfl

@[simp] theorem overrideOpt_some {α : Type} (v : α) (old : Option α) :
    overrideOpt (some v) old = some v := rfl

/-- `{ ...existing, ...updates, updatedAt: new Date().toISOString() }`
from `RunStore.update`. -/
def mergeRun (r : StoredRun) (p : RunPatch) (now : String) : StoredRun :=
  { id := r.id, createdAt := r.createdAt, filePath := r.filePath
    originalName := r.originalName, fileSize := r.fileSize
    status := p.status.getD r.status
    projectType := overrideOpt p.projectType r.projectType
    projectInfo := overrideOpt p.projectInfo r.projectInfo
    workerId := overrideOpt p.workerId r.workerId
    workerPort := overrideOpt p.workerPort r.workerPort
    previewUrl := overrideOpt p.previewUrl r.previewUrl
    error := overrideOpt p.error r.error
    readyAt := overrideOpt p.readyAt r.readyAt
    failedAt := overrideOpt p.failedAt r.failedAt
    updatedAt := some now }

/-- The in-memory registry: `this.runs = new Map()`, modelled as an
association list keyed by run id. -/
structure RunStore where
  runs : List (String × StoredRun) := []
  deriving Repr

/-- `RunStore.get`: `this.runs.get(id)`. -/
def RunStore.get (st : RunStore) (id : String) : Option StoredRun :=
  (st.runs.find? (fun kv => kv.1 == id)).map (fun kv => kv.2)

/-- `RunStore.update`: looks the id up; when absent it returns `null`
without modifying anything (and without throwing — the function is
total); when present it merges the update object over the existing
record, stamps `updatedAt`, stores the result under the same key
(`Map.set` on an existing key replaces the entry) and returns it. -/
def RunStore.update (st : RunStore) (id : String) (p : RunPatch) (now : String) :
    Option StoredRun × RunStore :=
  match st.get id with
  | none => (none, st)
  | some r =>
    let updated := mergeRun r p now
    (some updated,
      { runs := st.runs.map (fun kv => if kv.1 == id then (id, updated) else kv) })

theorem find?_map_set (l : List (String × StoredRun)) (id : String) (v : StoredRun)
    (h : ∃ kv ∈ l, kv.1 == id) :
    (l.map (fun kv => if kv.1 == id then (id, v) else kv)).find?
      (fun kv => kv.1 == id) = some (id, v) := by
  induction l with
  | nil => simp at h
  | cons a rest ih =>
    obtain ⟨kv, hkv, heq⟩ := h
    by_cases ha : (a.1 == id) = true
    · simp only [List.map_cons]
      rw [if_pos ha]
      exact List.find?_cons_of_pos _ (by simp)
    · have hkvr : kv ∈ rest := by
        rcases List.mem_cons.mp hkv with rfl | hm
        · exact absurd heq ha
        · exact hm
      simp only [List.map_cons]
      rw [if_neg ha]
      have hstep : List.find? (fun kv => kv.1 == id)
          (a :: List.map (fun kv => if (kv.1 == id) = true then (id, v) else kv) rest) =
          List.find? (fun kv => kv.1 == id)
            (List.map (fun kv => if (kv.1 == id) = true then (id, v) else kv) rest) :=
        List.find?_cons_of_neg _ ha
      rw [hstep]
      exact ih ⟨kv, hkvr, heq⟩

/-- C6: `RunStore.update` on a missing id returns an absent result and
leaves the store untouched (it is a total function, so it can never
throw); on a present id it merges the patch fields over the stored
record — patched fields replace, unpatched fields persist — stamps
`updatedAt` with the current time, stores and returns the merged run. -/
theorem runStore_update_spec (st : RunStore) (id : String) (p : RunPatch)
    (now : String) :
    (st.get id = none → RunStore.update st id p now = (none, st)) ∧
    (∀ r, st.get id = some r →
      (RunStore.update st id p now).1 = some (mergeRun r p now) ∧
      (mergeRun r p now).updatedAt = some now ∧
      (mergeRun r p now).status = p.status.getD r.status ∧
      (p.status = none → (mergeRun r p now).status = r.status) ∧
      (mergeRun r p now).previewUrl = overrideOpt p.previewUrl r.previewUrl ∧
      (mergeRun r p now).error = overrideOpt p.error r.error ∧
      (mergeRun r p now).workerId = overrideOpt p.workerId r.workerId ∧
      (mergeRun r p now).id = r.id ∧
      (RunStore.update st id p now).2.get id = some (mergeRun r p now)) := by
  constructor
  · intro hget
    unfold RunStore.update
    rw [hget]
  · intro r hget
    have hfound : ∃ kv ∈ st.runs, kv.1 == id := by
      unfold RunStore.get at hget
      cases hf : st.runs.find? (fun kv => kv.1 == id) with
      | none => rw [hf] at hget; simp at hget
      | some kv =>
        have := List.find?_some hf
        exact ⟨kv, List.mem_of_find?_eq_some hf, this⟩
    refine ⟨?_, rfl, rfl, ?_, rfl, rfl, rfl, rfl, ?_⟩
    · unfold RunStore.update
      rw [hget]
    · intro hnone
      simp [mergeRun, hnone]
    · unfold RunStore.update
      rw [hget]
      simp only [RunStore.get]
      rw [find?_map_set st.runs id (mergeRun r p now) hfound]
      rfl

/-- Witness for C6: an update racing a deletion (missing id) is a
silent no-op, and an update on a present id merges and stamps. -/
theorem runStore_update_spec_witness :
    (RunStore.update { runs := [] } "gone" { status := some "ready" } "t1" =
      (none, { runs := [] })) ∧
    ((RunStore.update
        { runs := [("r1", { id := "r1", status := "queued", createdAt := "t0" })] }
        "r1" { status := some "building" } "t1").1 =
      some (mergeRun { id := "r1", status := "queued", createdAt := "t0" }
        { status := some "building" } "t1")) :=
  ⟨(runStore_update_spec { runs := [] } "gone" { status := some "ready" } "t1").1 rfl,
   ((runStore_update_spec
      { runs := [("r1", { id := "r1", status := "queued", createdAt := "t0" })] }
      "r1" { status := some "building" } "t1").2
      { id := "r1", status := "queued", createdAt := "t0" } rfl).1⟩

/-! ## Workers (`WorkerManager` / `Worker`, src/services/worker-manager.js) -/

/-- The `Worker.status` values. -/
inductive WStatus where
  | created
  | starting
  | running
  | stopping
  | stopped
  | failed
  deriving Repr, DecidableEq

/-- A worker is live while provisioning or serving
(`starting`/`running`). -/
def isLive : WStatus → Bool
  | .starting => true
  | .running => true
  | _ => false

/-- `workerManager.get(workerId)`: the manager's `Map` of workers,
abstracted to each worker's status. -/
def lookupWorker (workers : List (String × WStatus)) (wid : String) : Option WStatus :=
  (workers.find? (fun kv => kv.1 == wid)).map (fun kv => kv.2)

/-! ## Preview Gateway (src/routes/preview.js) -/

/-- The two CSP profiles from `config.security.csp`. -/
inductive CSPProfile where
  | strict
  | relaxed
  deriving Repr, DecidableEq

/-- `getCSPForProject`: the JS `switch` on `run.projectType` sends
`'static'` to the strict profile, falls `'react' | 'vue' | 'angular'`
through to the relaxed profile, and defaults everything else (any
other string, or an absent project type) to strict. -/
def getCSPForProject (projectType : Option String) : CSPProfile :=
  if projectType = some "static" then .strict
  else if projectType = some "react" ∨ projectType = some "vue"
      ∨ projectType = some "angular" then .relaxed
  else .strict

/-- `getContentType`: derives the `Content-Type` header value from the
trailing request path. -/
def getContentType (path : String) : String :=
  if path = "" ∨ path.endsWith "/" ∨ path.endsWith ".html" then "text/html"
  else if path.endsWith ".js" then "application/javascript"
  else if path.endsWith ".css" then "text/css"
  else if path.endsWith ".json" then "application/json"
  else if path.endsWith ".png" then "image/png"
  else if path.endsWith ".jpg" ∨ path.endsWith ".jpeg" then "image/jpeg"
  else "text/plain"

/-- Response bodies of the preview route, abstracted to which template
is rendered and the data interpolated into it. -/
inductive PreviewContent where
  | workerContent (workerId path : String)
  | fallbackIndex (runId : String) (projectType : Option String)
  | fallbackJs (path runId : String)
  | fallbackCss (path : String)
  | fallbackPlain (path runId : String)
  | notFoundPage
  | notReadyPage (status : String)
  | errorPage
  deriving Repr, DecidableEq

/-- `generateFallbackContent(path, run)`: the sandbox landing page for
an empty or `index.html` path (`!path || path === '' ||
path === 'index.html'`), simulated JavaScript for `*.js`, simulated
CSS for `*.css`, and a plain-text placeholder otherwise. -/
def generateFallbackContent (path : String) (run : StoredRun) : PreviewContent :=
  if path = "" ∨ path = "index.html" then .fallbackIndex run.id run.projectType
  else if path.endsWith ".js" then .fallbackJs path run.id
  else if path.endsWith ".css" then .fallbackCss path
  else .fallbackPlain path run.id

/-- A preview HTTP response: status code, the CSP header, whether the
fixed isolation-header block (`X-Frame-Options`, nosniff, no-referrer,
CORP, no-store) was applied, the derived content type, and the body. -/
structure PreviewResponse where
  statusCode : Nat
  csp : Option CSPProfile := none
  isolationHeaders : Bool := false
  contentType : Option String := none
  body : PreviewContent
  deriving Repr, DecidableEq

/-- The `GET /preview/:runId/*` handler: 404 page when the registry has
no such run; 503 not-ready page carrying the current status when the
run is not `ready`; otherwise content comes from the worker when
`run.workerId` is set and known to the manager (`worker.getContent`
throws unless the worker is running, which the surrounding `catch`
turns into a 500), and from `generateFallbackContent` when `workerId`
is unset or unknown; security headers and the derived content type are
attached to every 200 response. -/
def previewHandler (runLookup : Option StoredRun)
    (workers : List (String × WStatus)) (path : String) : PreviewResponse :=
  match runLookup with
  | none => { statusCode := 404, body := .notFoundPage }
  | some run =>
    if run.status ≠ "ready" then
      { statusCode := 503, body := .notReadyPage run.status }
    else
      match
        (match run.workerId with
          | some wid =>
            match lookupWorker workers wid with
            | some ws =>
              if ws = WStatus.running then
                Except.ok (PreviewContent.workerContent wid path)
              else Except.error ()
            | none => Except.ok (generateFallbackContent path run)
          | none => Except.ok (generateFallbackContent path run)
          : Except Unit PreviewContent)
      with
      | .error _ => { statusCode := 500, body := .errorPage }
      | .ok c =>
        { statusCode := 200
          csp := some (getCSPForProject run.projectType)
          isolationHeaders := true
          contentType := some (getContentType path)
          body := c }

/-- C8: every 200 preview response for a ready run carries the CSP
profile selected from the run's project type — the relaxed profile
exactly for `react`/`vue`/`angular`, the strict profile for `static`,
for any other recorded type, and for a run with no recorded type. -/
theorem preview_csp_selection (run : StoredRun)
    (workers : List (String × WStatus)) (path : String)
    (hready : run.status = "ready") :
    ((run.projectType = some "react" ∨ run.projectType = some "vue" ∨
        run.projectType = some "angular") →
      getCSPForProject run.projectType = .relaxed) ∧
    ((∀ s, run.projectType = some s → s ≠ "react" ∧ s ≠ "vue" ∧ s ≠ "angular") →
      getCSPForProject run.projectType = .strict) ∧
    ((previewHandler (some run) workers path).statusCode = 200 →
      (previewHandler (some run) workers path).csp =
        some (getCSPForProject run.projectType)) := by
  refine ⟨?_, ?_, ?_⟩
  · intro h
    rcases h with h | h | h <;> simp [getCSPForProject, h]
  · intro h
    cases hp : run.projectType with
    | none => simp [getCSPForProject]
    | some s =>
      obtain ⟨h1, h2, h3⟩ := h s hp
      by_cases hs : s = "static"
      · simp [getCSPForProject, hs]
      · simp [getCSPForProject, h1, h2, h3, hs]
  · intro h200
    simp only [previewHandler] at h200 ⊢
    rw [if_neg (by simp [hready])] at h200 ⊢
    split at h200
    · simp at h200
    · rfl

/-- Witness for C8: a react run gets the relaxed profile, a static run
the strict one, and the handler attaches the selected profile. -/
theorem preview_csp_selection_witness :
    getCSPForProject (some "react") = CSPProfile.relaxed ∧
    getCSPForProject (some "static") = CSPProfile.strict ∧
    (previewHandler
        (some { id := "r1", status := "ready", createdAt := "t0",
                projectType := some "react" }) [] "").csp =
      some (getCSPForProject (some "react")) :=
  ⟨(preview_csp_selection
      { id := "r1", status := "ready", createdAt := "t0", projectType := some "react" }
      [] "" rfl).1 (Or.inl rfl),
   (preview_csp_selection
      { id := "r2", status := "ready", createdAt := "t0", projectType := some "static" }
      [] "" rfl).2.1 (fun s hs => by
        refine ⟨?_, ?_, ?_⟩ <;> · intro h; rw [h] at hs; exact absurd hs (by decide)),
   (preview_csp_selection
      { id := "r1", status := "ready", createdAt := "t0", projectType := some "react" }
      [] "" rfl).2.2 rfl⟩

/-- C10: for a ready run whose `workerId` is unset or unknown to the
manager, the preview succeeds with synthesized fallback content —
the landing page for empty/`index.html` paths, JavaScript for `*.js`,
CSS for `*.css`, plain text otherwise — under the same security
headers and derived content type a worker-backed response carries. -/
theorem preview_fallback_when_worker_missing (run : StoredRun)
    (workers : List (String × WStatus)) (path : String)
    (hready : run.status = "ready")
    (hw : run.workerId = none ∨
      (∀ wid, run.workerId = some wid → lookupWorker workers wid = none)) :
    previewHandler (some run) workers path =
      { statusCode := 200
        csp := some (getCSPForProject run.projectType)
        isolationHeaders := true
        contentType := some (getContentType path)
        body := generateFallbackContent path run } ∧
    ((path = "" ∨ path = "index.html") →
      generateFallbackContent path run = .fallbackIndex run.id run.projectType) ∧
    (¬ (path = "" ∨ path = "index.html") → path.endsWith ".js" = true →
      generateFallbackContent path run = .fallbackJs path run.id) ∧
    (¬ (path = "" ∨ path = "index.html") → path.endsWith ".js" = false →
      path.endsWith ".css" = true →
      generateFallbackContent path run = .fallbackCss path) ∧
    (¬ (path = "" ∨ path = "index.html") → path.endsWith ".js" = false →
      path.endsWith ".css" = false →
      generateFallbackContent path run = .fallbackPlain path run.id) ∧
    (∀ wid, previewHandler (some { run with workerId := some wid })
        [(wid, WStatus.running)] path =
      { statusCode := 200
        csp := some (getCSPForProject run.projectType)
        isolationHeaders := true
        contentType := some (getContentType path)
        body := .workerContent wid path }) := by
  refine ⟨?_, ?_, ?_, ?_, ?_, ?_⟩
  · simp only [previewHandler]
    rw [if_neg (by simp [hready])]
    rcases hw with hw | hw
    · rw [hw]
    · cases hwid : run.workerId with
      | none => rfl
      | some wid =>
        have hl := hw wid hwid
        simp [hl]
  · intro h
    simp only [generateFallbackContent]
    rw [if_pos h]
  · intro h hjs
    simp only [generateFallbackContent]
    rw [if_neg h, if_pos hjs]
  · intro h hjs hcss
    simp only [generateFallbackContent]
    rw [if_neg h, if_neg (by simp [hjs]), if_pos hcss]
  · intro h hjs hcss
    simp only [generateFallbackContent]
    rw [if_neg h, if_neg (by simp [hjs]), if_neg (by simp [hcss])]
  · intro wid
    simp only [previewHandler]
    rw [if_neg (by simp [hready])]
    have hl : lookupWorker [(wid, WStatus.running)] wid = some WStatus.running := by
      simp [lookupWorker]
    simp only [hl]
    rfl

/-- Witness for C10: a ready run with no recorded worker id served at
the root path. -/
theorem preview_fallback_when_worker_missing_witness :
    previewHandler
        (some { id := "r1", status := "ready", createdAt := "t0",
                projectType := some "static" }) [] "" =
      { statusCode := 200
        csp := some (getCSPForProject (some "static"))
        isolationHeaders := true
        contentType := some (getContentType "")
        body := generateFallbackContent ""
          { id := "r1", status := "ready", createdAt := "t0",
            projectType := some "static" } } ∧
    generateFallbackContent ""
        { id := "r1", status := "ready", createdAt := "t0",
          projectType := some "static" } =
      PreviewContent.fallbackIndex "r1" (some "static") :=
  ⟨(preview_fallback_when_worker_missing
      { id := "r1", status := "ready", createdAt := "t0", projectType := some "static" }
      [] "" rfl (Or.inl rfl)).1,
   (preview_fallback_when_worker_missing
      { id := "r1", status := "ready", createdAt := "t0", projectType := some "static" }
      [] "" rfl (Or.inl rfl)).2.1 (Or.inl rfl)⟩

/-! ## Run orchestration (`processRun`, the DELETE handler and the
worker lifecycle, src/routes/runs.js + src/services/worker-manager.js)

`processRun` is an async function whose registry/worker mutations are
synchronous sections separated by `await` points; the single-threaded
event loop can interleave the `DELETE /api/runs/:id` handler at any of
those points.  We model one run's execution as a transition system:
the state holds the registry entry for the run (`none` once deleted —
`RunStore.update` on a deleted id is `Option.map` over `none`, a
no-op, exactly mirroring the `update`-returns-null behaviour proved in
`runStore_update_spec`), the orchestrator's program counter, and the
statuses of the worker objects created for the run.  Distinct runs use
distinct uuids and distinct `worker-<runId>` worker ids and never
touch each other's state, so the single-run system is faithful. -/

/-- Program counter of `processRun` for one run: the label names the
next synchronous section to execute. -/
inductive OrchPc where
  | s0     -- created with status queued; about to mark extracting
  | s1     -- marked extracting; extractor in flight
  | s2     -- classification recorded (status building); about to call workerManager.start
  | s3     -- worker object created (status starting); build/start in flight
  | s4     -- worker.start resolved, worker running; about to record workerId
  | s5     -- workerId/workerPort recorded; waitUntilReady polling
  | s6     -- waitUntilReady resolved; about to mark ready
  | s7     -- ready recorded: processRun finished successfully
  | sFail  -- the catch block recorded a failure: processRun finished
  deriving Repr, DecidableEq

/-- The whole per-run system state. -/
structure SysState where
  reg : Option StoredRun
  pc : OrchPc
  workers : List WStatus
  deriving Repr, DecidableEq

/-- `runStore.update(run.id, { status: 'extracting' })`. -/
def patchExtracting : RunPatch := { status := some "extracting" }

/-- `runStore.update(run.id, { status: 'building', projectType, projectInfo })`. -/
def patchClassified (info : ProjectInfo) : RunPatch :=
  { status := some "building", projectType := some info.type, projectInfo := some info }

/-- `runStore.update(run.id, { status: 'building', workerId, workerPort })`. -/
def patchWorker (wid : String) (port : Nat) : RunPatch :=
  { status := some "building", workerId := some wid, workerPort := some port }

/-- `runStore.update(run.id, { status: 'ready', previewUrl, readyAt })`. -/
def patchReady (url t : String) : RunPatch :=
  { status := some "ready", previewUrl := some url, readyAt := some t }

/-- `runStore.update(run.id, { status: 'failed', error, failedAt })`
from the catch block in `processRun`. -/
def patchFailed (msg t : String) : RunPatch :=
  { status := some "failed", error := some msg, failedAt := some t }

/-- Replaces the status of the run's (last-created) worker object,
modelling a mutation of `worker.status`. -/
def setLast (w : WStatus) : List WStatus → List WStatus
  | [] => []
  | [_] => [w]
  | x :: rest => x :: setLast w rest

/-- The run record `POST /api/runs` creates before calling
`processRun`. -/
def initRun (id t : String) : StoredRun :=
  { id := id, status := "queued", createdAt := t }

/-- System state right after `runStore.create(run)`. -/
def initState (id t : String) : SysState :=
  { reg := some (initRun id t), pc := .s0, workers := [] }

/-- `runStore.update(runId, { status: 'failed', error })` from the
`processRun(run).catch` in the POST handler. -/
def patchFailNote (msg : String) : RunPatch :=
  { status := some "failed", error := some msg }

/-- Registry write: `Option.map` makes the update a silent no-op once
the entry has been deleted, mirroring `RunStore.update` on a missing
id. -/
def regUpdate (p : RunPatch) (t : String) (reg : Option StoredRun) : Option StoredRun :=
  reg.map (fun r => mergeRun r p t)

/-- The worker-list effect of `workerManager.stop(run.workerId)` in
the DELETE handler: stops the run's worker when the stored record
carries a `workerId`, otherwise touches nothing. -/
def stopIfRecorded (r : StoredRun) (workers : List WStatus) : List WStatus :=
  match r.workerId with
  | some _ => setLast WStatus.stopped workers
  | none => workers

/-- One atomic event-loop step.  Orchestrator constructors cover the
synchronous sections of `processRun` between its `await` points
(registry writes go through `mergeRun`, and are no-ops once the entry
is deleted); `deleteRun` is the `DELETE /api/runs/:id` handler, which
stops the run's worker only when the *stored* record carries a
`workerId`; `failNote` is the duplicate failure update from the
`processRun(run).catch` in the POST handler. -/
inductive OrchStep : SysState → SysState → Prop where
  | markExtracting (s : SysState) (t : String) (h : s.pc = .s0) :
      OrchStep s ⟨regUpdate patchExtracting t s.reg, .s1, s.workers⟩
  | extractOk (s : SysState) (info : ProjectInfo) (t : String) (h : s.pc = .s1) :
      OrchStep s ⟨regUpdate (patchClassified info) t s.reg, .s2, s.workers⟩
  | extractFail (s : SysState) (msg t : String) (h : s.pc = .s1) :
      OrchStep s ⟨regUpdate (patchFailed msg t) t s.reg, .sFail, s.workers⟩
  | startWorker (s : SysState) (h : s.pc = .s2) :
      OrchStep s ⟨s.reg, .s3, s.workers ++ [WStatus.starting]⟩
  | buildOk (s : SysState) (h : s.pc = .s3) :
      OrchStep s ⟨s.reg, .s4, setLast WStatus.running s.workers⟩
  | buildFail (s : SysState) (msg t : String) (h : s.pc = .s3) :
      OrchStep s ⟨regUpdate (patchFailed msg t) t s.reg, .sFail,
        setLast WStatus.failed s.workers⟩
  | recordWorker (s : SysState) (wid : String) (port : Nat) (t : String)
      (h : s.pc = .s4) :
      OrchStep s ⟨regUpdate (patchWorker wid port) t s.reg, .s5, s.workers⟩
  | awaitOk (s : SysState) (h : s.pc = .s5)
      (hw : s.workers.getLast? = some WStatus.running) :
      OrchStep s ⟨s.reg, .s6, s.workers⟩
  | awaitFail (s : SysState) (msg t : String) (h : s.pc = .s5)
      (hw : s.workers.getLast? ≠ some WStatus.running) :
      OrchStep s ⟨regUpdate (patchFailed msg t) t s.reg, .sFail, s.workers⟩
  | markReady (s : SysState) (url t : String) (h : s.pc = .s6) :
      OrchStep s ⟨regUpdate (patchReady url t) t s.reg, .s7, s.workers⟩
  | failNote (s : SysState) (msg t : String) (h : s.pc = .sFail) :
      OrchStep s ⟨regUpdate (patchFailNote msg) t s.reg, .sFail, s.workers⟩
  | deleteRun (s : SysState) (r : StoredRun) (hr : s.reg = some r) :
      OrchStep s ⟨none, s.pc, stopIfRecorded r s.workers⟩

/-- States reachable for one run from its creation. -/
inductive OrchReachable (id t : String) : SysState → Prop where
  | init : OrchReachable id t (initState id t)
  | step {s s' : SysState} (hs : OrchReachable id t s) (hstep : OrchStep s s') :
      OrchReachable id t s'

/-- Registry-record facts tied to the orchestrator's position, plus
the worker-list shape; strong enough to be inductive over `OrchStep`. -/
def orchInv (pc : OrchPc) (reg : Option StoredRun) (workers : List WStatus) : Prop :=
  match pc with
  | .s0 => workers = [] ∧ ∀ r, reg = some r → r.status = "queued" ∧
      r.previewUrl = none ∧ r.error = none ∧ r.workerId = none
  | .s1 => workers = [] ∧ ∀ r, reg = some r → r.status = "extracting" ∧
      r.previewUrl = none ∧ r.error = none ∧ r.workerId = none
  | .s2 => workers = [] ∧ ∀ r, reg = some r → r.status = "building" ∧
      r.previewUrl = none ∧ r.error = none ∧ r.workerId = none
  | .s3 => workers = [WStatus.starting] ∧ ∀ r, reg = some r → r.status = "building" ∧
      r.previewUrl = none ∧ r.error = none ∧ r.workerId = none
  | .s4 => workers = [WStatus.running] ∧ ∀ r, reg = some r → r.status = "building" ∧
      r.previewUrl = none ∧ r.error = none ∧ r.workerId = none
  | .s5 => (workers = [WStatus.running] ∨ (reg = none ∧ workers = [WStatus.stopped])) ∧
      ∀ r, reg = some r → workers = [WStatus.running] ∧ r.status = "building" ∧
        r.previewUrl = none ∧ r.error = none ∧ r.workerId.isSome
  | .s6 => (workers = [WStatus.running] ∨ (reg = none ∧ workers = [WStatus.stopped])) ∧
      ∀ r, reg = some r → workers = [WStatus.running] ∧ r.status = "building" ∧
        r.previewUrl = none ∧ r.error = none ∧ r.workerId.isSome
  | .s7 => (workers = [WStatus.running] ∨ (reg = none ∧ workers = [WStatus.stopped])) ∧
      ∀ r, reg = some r → workers = [WStatus.running] ∧ r.status = "ready" ∧
        r.previewUrl.isSome ∧ r.error = none ∧ r.workerId.isSome
  | .sFail => (workers = [] ∨ workers = [WStatus.failed] ∨ workers = [WStatus.stopped]) ∧
      ∀ r, reg = some r → r.status = "failed" ∧
        r.previewUrl = none ∧ r.error.isSome ∧ r.workerId = none

theorem orchInv_reachable (id t : String) (s : SysState)
    (hs : OrchReachable id t s) : orchInv s.pc s.reg s.workers := by
  induction hs with
  | init => exact ⟨rfl, fun r hr => by cases hr; exact ⟨rfl, rfl, rfl, rfl⟩⟩
  | @step s1 s2 hs hstep ih =>
    cases hstep with
    | markExtracting t' h =>
      rw [h] at ih
      dsimp only
      obtain ⟨hwk, hreg⟩ := ih
      refine ⟨hwk, fun r' hr' => ?_⟩
      simp only [regUpdate] at hr'
      obtain ⟨r, hr, rfl⟩ := Option.map_eq_some'.mp hr'
      obtain ⟨_, hp, he, hw⟩ := hreg r hr
      simp [mergeRun, patchExtracting, hp, he, hw]
    | extractOk info t' h =>
      rw [h] at ih
      dsimp only
      obtain ⟨hwk, hreg⟩ := ih
      refine ⟨hwk, fun r' hr' => ?_⟩
      simp only [regUpdate] at hr'
      obtain ⟨r, hr, rfl⟩ := Option.map_eq_some'.mp hr'
      obtain ⟨_, hp, he, hw⟩ := hreg r hr
      simp [mergeRun, patchClassified, hp, he, hw]
    | extractFail msg t' h =>
      rw [h] at ih
      dsimp only
      obtain ⟨hwk, hreg⟩ := ih
      refine ⟨Or.inl hwk, fun r' hr' => ?_⟩
      simp only [regUpdate] at hr'
      obtain ⟨r, hr, rfl⟩ := Option.map_eq_some'.mp hr'
      obtain ⟨_, hp, he, hw⟩ := hreg r hr
      simp [mergeRun, patchFailed, hp, he, hw]
    | startWorker h =>
      rw [h] at ih
      dsimp only
      obtain ⟨hwk, hreg⟩ := ih
      rw [hwk]
      exact ⟨rfl, fun r hr => hreg r hr⟩
    | buildOk h =>
      rw [h] at ih
      dsimp only
      obtain ⟨hwk, hreg⟩ := ih
      rw [hwk]
      exact ⟨rfl, fun r hr => hreg r hr⟩
    | buildFail msg t' h =>
      rw [h] at ih
      dsimp only
      obtain ⟨hwk, hreg⟩ := ih
      rw [hwk]
      refine ⟨Or.inr (Or.inl rfl), fun r' hr' => ?_⟩
      simp only [regUpdate] at hr'
      obtain ⟨r, hr, rfl⟩ := Option.map_eq_some'.mp hr'
      obtain ⟨_, hp, he, hw⟩ := hreg r hr
      simp [mergeRun, patchFailed, hp, he, hw]
    | recordWorker wid port t' h =>
      rw [h] at ih
      dsimp only
      obtain ⟨hwk, hreg⟩ := ih
      rw [hwk]
      refine ⟨Or.inl rfl, fun r' hr' => ?_⟩
      simp only [regUpdate] at hr'
      obtain ⟨r, hr, rfl⟩ := Option.map_eq_some'.mp hr'
      obtain ⟨_, hp, he, _⟩ := hreg r hr
      simp [mergeRun, patchWorker, hp, he]
    | awaitOk h hw =>
      rw [h] at ih
      dsimp only
      exact ih
    | awaitFail msg t' h hw =>
      rw [h] at ih
      dsimp only
      obtain ⟨hwk, hreg⟩ := ih
      rcases hwk with hwk | ⟨hn, hwk⟩
      · exact absurd (by rw [hwk]; rfl) hw
      · refine ⟨Or.inr (Or.inr hwk), fun r' hr' => ?_⟩
        simp [regUpdate, hn] at hr'
    | markReady url t' h =>
      rw [h] at ih
      dsimp only
      obtain ⟨hwk, hreg⟩ := ih
      refine ⟨?_, fun r' hr' => ?_⟩
      · rcases hwk with hwk | ⟨hn, hwk⟩
        · exact Or.inl hwk
        · exact Or.inr ⟨by simp [regUpdate, hn], hwk⟩
      simp only [regUpdate] at hr'
      obtain ⟨r, hr, rfl⟩ := Option.map_eq_some'.mp hr'
      obtain ⟨hwrun, _, hp, he, hwid⟩ := hreg r hr
      refine ⟨hwrun, ?_⟩
      simp [mergeRun, patchReady, hp, he, hwid]
    | failNote msg t' h =>
      rw [h] at ih
      dsimp only
      obtain ⟨hwk, hreg⟩ := ih
      refine ⟨hwk, fun r' hr' => ?_⟩
      simp only [regUpdate] at hr'
      obtain ⟨r, hr, rfl⟩ := Option.map_eq_some'.mp hr'
      obtain ⟨hst, hp, he, hw⟩ := hreg r hr
      simp [mergeRun, patchFailNote, hp, hw]
    | deleteRun r hr =>
      cases hpc : s1.pc <;> rw [hpc] at ih <;> dsimp only
      case s0 | s1 | s2 | s3 | s4 =>
        obtain ⟨hwk, hreg⟩ := ih
        obtain ⟨_, _, _, hwid⟩ := hreg r hr
        simp only [stopIfRecorded, hwid]
        exact ⟨hwk, fun r' hr' => by simp at hr'⟩
      case s5 | s6 | s7 =>
        obtain ⟨hwk, hreg⟩ := ih
        obtain ⟨hwrun, _, _, _, hwid⟩ := hreg r hr
        obtain ⟨w, hw⟩ := Option.isSome_iff_exists.mp hwid
        simp only [stopIfRecorded, hw, hwrun]
        exact ⟨Or.inr ⟨rfl, rfl⟩, fun r' hr' => by simp at hr'⟩
      case sFail =>
        obtain ⟨hwk, hreg⟩ := ih
        obtain ⟨_, _, _, hwid⟩ := hreg r hr
        simp only [stopIfRecorded, hwid]
        exact ⟨hwk, fun r' hr' => by simp at hr'⟩

/-- C5: in every reachable registry record produced by the
orchestration steps, `previewUrl` is present exactly when `status` is
`ready`, and `error` is present exactly when `status` is `failed`. -/
theorem run_record_field_invariant (id t : String) (s : SysState)
    (hs : OrchReachable id t s) (r : StoredRun) (hr : s.reg = some r) :
    (r.previewUrl.isSome ↔ r.status = "ready") ∧
    (r.error.isSome ↔ r.status = "failed") := by
  have hinv := orchInv_reachable id t s hs
  cases hpc : s.pc <;> rw [hpc] at hinv
  case s0 | s1 | s2 | s3 | s4 =>
    obtain ⟨_, hreg⟩ := hinv
    obtain ⟨hst, hpu, herr, _⟩ := hreg r hr
    simp [hst, hpu, herr]
  case s5 | s6 =>
    obtain ⟨_, hreg⟩ := hinv
    obtain ⟨_, hst, hpu, herr, _⟩ := hreg r hr
    simp [hst, hpu, herr]
  case s7 =>
    obtain ⟨_, hreg⟩ := hinv
    obtain ⟨_, hst, hpu, herr, _⟩ := hreg r hr
    simp [hst, hpu, herr]
  case sFail =>
    obtain ⟨_, hreg⟩ := hinv
    obtain ⟨hst, hpu, herr, _⟩ := hreg r hr
    simp [hst, hpu, herr]

/-- Witness for C5 at the freshly created record. -/
theorem run_record_field_invariant_witness :
    ((initRun "run-1" "t0").previewUrl.isSome ↔
      (initRun "run-1" "t0").status = "ready") ∧
    ((initRun "run-1" "t0").error.isSome ↔
      (initRun "run-1" "t0").status = "failed") :=
  run_record_field_invariant "run-1" "t0" (initState "run-1" "t0")
    OrchReachable.init (initRun "run-1" "t0") rfl

/-- C7: every reachable state has at most one live
(`starting`/`running`) worker for the run, and at the unique program
point where `processRun` calls `workerManager.start` (pc `s2`, source
of the only worker-creating transition) the run has no live worker —
so a new worker is never started for a run that already has one. -/
theorem at_most_one_live_worker (id t : String) (s : SysState)
    (hs : OrchReachable id t s) :
    s.workers.countP isLive ≤ 1 ∧
    (s.pc = OrchPc.s2 → s.workers.countP isLive = 0) := by
  have hinv := orchInv_reachable id t s hs
  cases hpc : s.pc <;> rw [hpc] at hinv
  case s0 | s1 | s2 =>
    obtain ⟨hwk, _⟩ := hinv
    rw [hwk]
    exact ⟨by decide, fun _ => by decide⟩
  case s3 | s4 =>
    obtain ⟨hwk, _⟩ := hinv
    rw [hwk]
    exact ⟨by decide, fun h => by cases h⟩
  case s5 | s6 | s7 =>
    obtain ⟨hwk, _⟩ := hinv
    rcases hwk with hwk | ⟨_, hwk⟩ <;> rw [hwk] <;>
      exact ⟨by decide, fun h => by cases h⟩
  case sFail =>
    obtain ⟨hwk, _⟩ := hinv
    rcases hwk with hwk | hwk | hwk <;> rw [hwk] <;>
      exact ⟨by decide, fun h => by cases h⟩

/-- Witness for C7 at the reachable state sitting at the
`workerManager.start` call site. -/
theorem at_most_one_live_worker_witness :
    (⟨regUpdate (patchClassified { type := "static" }) "t2"
        (regUpdate patchExtracting "t1" (some (initRun "run-1" "t0"))),
      OrchPc.s2, []⟩ : SysState).workers.countP isLive ≤ 1 ∧
    (⟨regUpdate (patchClassified { type := "static" }) "t2"
        (regUpdate patchExtracting "t1" (some (initRun "run-1" "t0"))),
      OrchPc.s2, []⟩ : SysState).workers.countP isLive = 0 := by
  have h0 : OrchReachable "run-1" "t0" (initState "run-1" "t0") :=
    OrchReachable.init
  have h1 := OrchReachable.step h0 (OrchStep.markExtracting _ "t1" rfl)
  have h2 := OrchReachable.step h1
    (OrchStep.extractOk _ { type := "static" } "t2" rfl)
  exact ⟨(at_most_one_live_worker "run-1" "t0" _ h2).1,
    (at_most_one_live_worker "run-1" "t0" _ h2).2 rfl⟩

/-- C4 fails on the code: when a run is deleted while its orchestrator
is in `building` — after `workerManager.start` was invoked but before
the worker id was recorded in the registry — every later registry
update is indeed a silent no-op and `get` is absent (`reg = none` in
the final state), but the DELETE handler reads `run.workerId`, still
unset at that moment, so `workerManager.stop` is never invoked: the
completed trace ends with a live running worker and no transition can
ever stop it, leaking the worker in contradiction with the claim. -/
theorem delete_mid_flight_leaks_worker :
    ∃ s : SysState, OrchReachable "run-1" "t0" s ∧
      s.pc = OrchPc.s7 ∧ s.reg = none ∧ s.workers = [WStatus.running] ∧
      s.workers.countP isLive = 1 ∧ ∀ s', ¬ OrchStep s s' := by
  refine ⟨⟨none, OrchPc.s7, [WStatus.running]⟩, ?_, rfl, rfl, rfl, by decide, ?_⟩
  · have h0 : OrchReachable "run-1" "t0" (initState "run-1" "t0") :=
      OrchReachable.init
    have h1 := OrchReachable.step h0 (OrchStep.markExtracting _ "t1" rfl)
    have h2 := OrchReachable.step h1
      (OrchStep.extractOk _ { type := "static" } "t2" rfl)
    have h3 := OrchReachable.step h2 (OrchStep.startWorker _ rfl)
    have h4 := OrchReachable.step h3 (OrchStep.deleteRun _ _ rfl)
    have h5 := OrchReachable.step h4 (OrchStep.buildOk _ rfl)
    have h6 := OrchReachable.step h5
      (OrchStep.recordWorker _ "worker-run-1" 8000 "t3" rfl)
    have h7 := OrchReachable.step h6 (OrchStep.awaitOk _ rfl rfl)
    have h8 := OrchReachable.step h7
      (OrchStep.markReady _ "/preview/run-1" "t4" rfl)
    exact h8
  · intro s' hstep
    cases hstep <;> simp_all

end Pipeline
